import Mathlib

/-!
Verification of the grok-rag-chatbot retrieval engine.

This file embeds, in Lean, the pure computational content of
`src/backend/services/document_processor.py`,
`src/backend/services/milvus_service.py` and the call sites in
`src/app.py`, and proves (or refutes) the specification claims about
them.  Text is modelled as `List Char`; Python floats are modelled as
rationals; Python exceptions are modelled with `Except`/`Option`.
-/

namespace RagChatbot

/-! ## Python string primitives

Models of the Python string operations used by the services:
`str.split()` (split on whitespace runs, dropping empty pieces),
`' '.join`, `str.strip()`, and list slicing `l[a:b]` with Python's
index clamping (negative indices count from the end).
-/

/-- Python `str.isspace` on the whitespace characters relevant here. -/
def isPySpace (c : Char) : Bool :=
  c = ' ' ∨ c = '\t' ∨ c = '\n' ∨ c = '\r'

/-- Accumulator worker for `pySplit`: `acc` is the current word, reversed. -/
def pySplitAux : List Char → List Char → List (List Char)
  | [], acc => if acc = [] then [] else [acc.reverse]
  | c :: cs, acc =>
    if isPySpace c then
      if acc = [] then pySplitAux cs [] else acc.reverse :: pySplitAux cs []
    else
      pySplitAux cs (c :: acc)

/-- Python `text.split()`: whitespace-separated words, empties dropped. -/
def pySplit (l : List Char) : List (List Char) :=
  pySplitAux l []

/-- Python `' '.join(words)`. -/
def pyJoin : List (List Char) → List Char
  | [] => []
  | [w] => w
  | w :: ws => w ++ ' ' :: pyJoin ws

/-- Python `s.strip()`. -/
def pyStrip (l : List Char) : List Char :=
  ((l.dropWhile isPySpace).reverse.dropWhile isPySpace).reverse

/-- Resolve one Python slice index against a list of length `n`. -/
def pyIdx (n : Nat) (i : Int) : Nat :=
  if i < 0 then (max (i + (n : Int)) 0).toNat else min i.toNat n

/-- Python list slicing `l[a:b]`. -/
def pySlice {α : Type} (l : List α) (a b : Int) : List α :=
  let s := pyIdx l.length a
  let e := pyIdx l.length b
  (l.drop s).take (e - s)

/-! ## DocumentProcessor._chunk_text

`src/backend/services/document_processor.py`, lines 72-109.  The
Python `while` loop is modelled with explicit fuel: `none` means the
given fuel was not enough (so `∀ fuel, … = none` exhibits divergence).
The loop variable `start` is an `Int`, as in Python it can go negative
(`start = end - words_overlap`).
-/

structure Chunk where
  text : List Char
  filename : String
  chunk_index : Nat
  deriving DecidableEq

/-- The text of one window: `' '.join(words[start:start+words_per_chunk])`. -/
def windowText (wpc : Nat) (words : List (List Char)) (start : Int) : List Char :=
  pyJoin (pySlice words start (start + (wpc : Int)))

/-- The `while start < len(words)` loop of `_chunk_text`, with fuel.
One iteration: slice `words[start:end]`, join, keep the chunk when the
stripped text is longer than 50; then `start = end - words_overlap`,
breaking first when `end >= len(words)`. -/
def chunkCore (wpc wo : Nat) (filename : String) (words : List (List Char)) :
    Nat → Int → Nat → Option (List Chunk)
  | 0, _, _ => none
  | fuel + 1, start, idx =>
    if start < (words.length : Int) then
      if (words.length : Int) ≤ start + (wpc : Int) then
        some (if 50 < (pyStrip (windowText wpc words start)).length
              then [⟨windowText wpc words start, filename, idx⟩] else [])
      else
        match chunkCore wpc wo filename words fuel (start + (wpc : Int) - (wo : Int))
            (if 50 < (pyStrip (windowText wpc words start)).length then idx + 1 else idx) with
        | none => none
        | some rest =>
          some ((if 50 < (pyStrip (windowText wpc words start)).length
                 then [⟨windowText wpc words start, filename, idx⟩] else []) ++ rest)
    else
      some []

/-- `DocumentProcessor._chunk_text`.  `chunk_size` and `chunk_overlap`
are the instance attributes (defaults 1000 and 200, or whatever
`set_chunk_parameters` installed); words per chunk and overlap are
`chunk_size // 5` and `chunk_overlap // 5`. -/
def chunk_text (chunk_size chunk_overlap : Nat) (filename : String)
    (text : List Char) (fuel : Nat) : Option (List Chunk) :=
  if text = [] then some []
  else chunkCore (chunk_size / 5) (chunk_overlap / 5) filename (pySplit text) fuel 0 0

/-! ### Length facts about the string primitives -/

theorem pyJoin_length (ws : List (List Char)) :
    (pyJoin ws).length = (ws.map List.length).sum + (ws.length - 1) := by
  induction ws with
  | nil => simp [pyJoin]
  | cons w ws ih =>
    cases ws with
    | nil => simp [pyJoin]
    | cons x xs =>
      simp only [pyJoin, List.length_append, List.length_cons, ih,
        List.map_cons, List.sum_cons]
      omega

theorem length_pyJoin_take (ws : List (List Char)) (k : Nat) :
    (pyJoin (ws.take k)).length ≤ (pyJoin ws).length := by
  have hsum : ((ws.take k).map List.length).sum ≤ (ws.map List.length).sum := by
    conv_rhs => rw [← List.take_append_drop k ws]
    rw [List.map_append, List.sum_append]
    exact Nat.le_add_right _ _
  have hlen : (ws.take k).length ≤ ws.length := by
    rw [List.length_take]; exact min_le_right _ _
  rw [pyJoin_length, pyJoin_length]
  omega

theorem length_pyJoin_drop (ws : List (List Char)) (k : Nat) :
    (pyJoin (ws.drop k)).length ≤ (pyJoin ws).length := by
  have hsum : ((ws.drop k).map List.length).sum ≤ (ws.map List.length).sum := by
    conv_rhs => rw [← List.take_append_drop k ws]
    rw [List.map_append, List.sum_append]
    exact Nat.le_add_left _ _
  have hlen : (ws.drop k).length ≤ ws.length := by
    rw [List.length_drop]; omega
  rw [pyJoin_length, pyJoin_length]
  omega

theorem length_pyJoin_pySlice (ws : List (List Char)) (a b : Int) :
    (pyJoin (pySlice ws a b)).length ≤ (pyJoin ws).length := by
  unfold pySlice
  exact (length_pyJoin_take _ _).trans (length_pyJoin_drop _ _)

theorem length_dropWhileAux_le (p : Char → Bool) (l : List Char) :
    (l.dropWhile p).length ≤ l.length := by
  induction l with
  | nil => simp
  | cons c cs ih =>
    rw [List.dropWhile_cons]
    split
    · exact ih.trans (Nat.le_succ _)
    · simp

theorem length_pyStrip_le (l : List Char) : (pyStrip l).length ≤ l.length := by
  unfold pyStrip
  rw [List.length_reverse]
  calc ((l.dropWhile isPySpace).reverse.dropWhile isPySpace).length
      ≤ (l.dropWhile isPySpace).reverse.length := length_dropWhileAux_le _ _
    _ = (l.dropWhile isPySpace).length := List.length_reverse _
    _ ≤ l.length := length_dropWhileAux_le _ _

theorem length_pyJoin_pySplitAux (l : List Char) :
    ∀ acc : List Char, (pyJoin (pySplitAux l acc)).length ≤ l.length + acc.length := by
  induction l with
  | nil =>
    intro acc
    by_cases h : acc = [] <;> simp [pySplitAux, h, pyJoin]
  | cons c cs ih =>
    intro acc
    by_cases hs : isPySpace c = true
    · by_cases ha : acc = []
      · simpa [pySplitAux, hs, ha] using (ih []).trans (by simp)
      · have h2 := ih ([] : List Char)
        simp only [pySplitAux, if_pos hs, if_neg ha]
        cases hrec : pySplitAux cs [] with
        | nil => simp [pyJoin]
        | cons w ws =>
          have hj : (pyJoin (acc.reverse :: w :: ws)).length
              = acc.length + 1 + (pyJoin (w :: ws)).length := by
            simp [pyJoin, List.length_append]
            omega
          rw [hj]
          rw [hrec] at h2
          simp only [List.length_nil, Nat.add_zero] at h2
          simp only [List.length_cons]
          omega
    · have h2 := ih (c :: acc)
      simp only [pySplitAux, if_neg hs] at h2 ⊢
      simp only [List.length_cons] at h2 ⊢
      omega

theorem length_pyJoin_pySplit (l : List Char) :
    (pyJoin (pySplit l)).length ≤ l.length := by
  simpa using length_pyJoin_pySplitAux l []

/-! ### Invariants of the chunking loop -/

/-- Every chunk kept by the loop passed the `> 50` stripped-length guard,
and its text is the join of a slice of the word list, so its length is
bounded by the join of all words. -/
theorem chunkCore_chunks_sound (wpc wo : Nat) (fn : String) (W : List (List Char)) :
    ∀ fuel start idx res, chunkCore wpc wo fn W fuel start idx = some res →
      ∀ c ∈ res, 50 < (pyStrip c.text).length ∧ c.text.length ≤ (pyJoin W).length := by
  intro fuel
  induction fuel with
  | zero => intro start idx res h; simp [chunkCore] at h
  | succ n ih =>
    intro start idx res h c hc
    rw [chunkCore] at h
    split at h
    · split at h
      · -- final window: loop breaks after this iteration
        injection h with h
        subst h
        split at hc
        · rcases List.mem_singleton.mp hc with rfl
          refine ⟨by assumption, ?_⟩
          simpa [windowText] using length_pyJoin_pySlice W start (start + (wpc : Int))
        · simp at hc
      · -- loop continues
        split at h
        · exact absurd h (by simp)
        · rename_i rest hrest
          injection h with h
          subst h
          rcases List.mem_append.mp hc with hl | hr
          · split at hl
            · rcases List.mem_singleton.mp hl with rfl
              refine ⟨by assumption, ?_⟩
              simpa [windowText] using length_pyJoin_pySlice W start (start + (wpc : Int))
            · simp at hl
          · exact ih _ _ _ hrest c hr
    · injection h with h
      subst h
      simp at hc

/-- The chunk indices emitted by the loop starting at `idx` are exactly
`idx, idx+1, …`: dropped windows leave no gaps. -/
theorem chunkCore_indices (wpc wo : Nat) (fn : String) (W : List (List Char)) :
    ∀ fuel start idx res, chunkCore wpc wo fn W fuel start idx = some res →
      res.map Chunk.chunk_index = List.range' idx res.length := by
  intro fuel
  induction fuel with
  | zero => intro start idx res h; simp [chunkCore] at h
  | succ n ih =>
    intro start idx res h
    rw [chunkCore] at h
    split at h
    · split at h
      · injection h with h
        subst h
        split <;> simp [List.range']
      · split at h
        · exact absurd h (by simp)
        · rename_i rest hrest
          injection h with h
          subst h
          by_cases h50 : 50 < (pyStrip (windowText wpc W start)).length
          · rw [if_pos h50] at hrest
            simpa [if_pos h50, List.range'] using ih _ _ _ hrest
          · rw [if_neg h50] at hrest
            simpa [if_neg h50] using ih _ _ _ hrest
    · injection h with h
      subst h
      simp

/-- The loop state `start = 0, idx = 0` repeats forever when
`words_per_chunk = words_overlap = 2` on a three-word input: the window
never reaches the end and the net advance is zero. -/
theorem chunkCore_equal_overlap_diverges (fn : String) :
    ∀ fuel, chunkCore 2 2 fn (pySplit "word1 word2 word3".toList) fuel 0 0 = none := by
  intro fuel
  induction fuel with
  | zero => rfl
  | succ n ih =>
    rw [chunkCore]
    rw [if_pos (by decide), if_neg (by decide)]
    simp only [show ((0 : Int) + ((2 : Nat) : Int) - ((2 : Nat) : Int)) = 0 from by decide,
      show (if 50 < (pyStrip (windowText 2 (pySplit ("word1 word2 word3".toList)) 0)).length
            then 0 + 1 else 0) = 0 from by decide]
    rw [ih]

/-- C1: the claim says `_chunk_text` terminates for every configuration
installed via `set_chunk_parameters`, in particular when
`chunk_overlap ≥ chunk_size`.  The code has no such guard: with
`chunk_size = 10` and `chunk_overlap = 10` (so 2 words per chunk and
2 words of overlap) on the three-word input `"word1 word2 word3"`, the
window end never reaches the end of the input and
`start = end - words_overlap` never advances, so no amount of fuel
makes the loop finish: the `while` loop runs forever. -/
theorem chunk_text_diverges_when_overlap_ge_size :
    ∀ fuel, chunk_text 10 10 "doc" ("word1 word2 word3".toList) fuel = none := by
  intro fuel
  rw [chunk_text, if_neg (by decide)]
  exact chunkCore_equal_overlap_diverges "doc" fuel

/-- C6: every chunk emitted by `_chunk_text` has stripped text length
strictly greater than 50 (undersized windows are dropped), and an empty
input, or an input of at most 50 characters, yields the empty chunk
sequence. -/
theorem chunk_text_min_chunk_length (cs co : Nat) (fn : String) (text : List Char)
    (fuel : Nat) (res : List Chunk) (h : chunk_text cs co fn text fuel = some res) :
    (∀ c ∈ res, 50 < (pyStrip c.text).length) ∧
    (text = [] → res = []) ∧
    (text.length ≤ 50 → res = []) := by
  rw [chunk_text] at h
  by_cases ht : text = []
  · rw [if_pos ht] at h
    injection h with h
    subst h
    exact ⟨fun c hc => absurd hc (List.not_mem_nil c), fun _ => rfl, fun _ => rfl⟩
  · rw [if_neg ht] at h
    have hsound := chunkCore_chunks_sound (cs / 5) (co / 5) fn (pySplit text) fuel 0 0 res h
    refine ⟨fun c hc => (hsound c hc).1, fun he => absurd he ht, fun hle => ?_⟩
    refine List.eq_nil_iff_forall_not_mem.mpr fun c hc => ?_
    rcases hsound c hc with ⟨hgt, hbound⟩
    have h1 : (pyStrip c.text).length ≤ c.text.length := length_pyStrip_le _
    have h2 : (pyJoin (pySplit text)).length ≤ text.length := length_pyJoin_pySplit text
    omega

/-- A nine-character word, for concrete chunking examples. -/
def w9 : List Char := "abcdefghi".toList

theorem chunk_text_min_chunk_length_witness :
    (∀ c ∈ [Chunk.mk (List.replicate 60 'a') "doc" 0], 50 < (pyStrip c.text).length) ∧
    (List.replicate 60 'a' = [] → [Chunk.mk (List.replicate 60 'a') "doc" 0] = []) ∧
    ((List.replicate 60 'a').length ≤ 50 → [Chunk.mk (List.replicate 60 'a') "doc" 0] = []) :=
  chunk_text_min_chunk_length 1000 200 "doc" (List.replicate 60 'a') 1 _ (by decide)

/-- C7: the chunk indices of the sequence returned by `_chunk_text` are
exactly `0, 1, …, k-1` in emission order: the index is incremented only
when a chunk is kept, so dropped windows leave no gaps. -/
theorem chunk_text_indices_dense (cs co : Nat) (fn : String) (text : List Char)
    (fuel : Nat) (res : List Chunk) (h : chunk_text cs co fn text fuel = some res) :
    res.map Chunk.chunk_index = List.range res.length := by
  rw [chunk_text] at h
  by_cases ht : text = []
  · rw [if_pos ht] at h
    injection h with h
    subst h
    rfl
  · rw [if_neg ht] at h
    rw [List.range_eq_range']
    exact chunkCore_indices (cs / 5) (co / 5) fn (pySplit text) fuel 0 0 res h

theorem chunk_text_indices_dense_witness :
    List.map Chunk.chunk_index
        [Chunk.mk (pyJoin (List.replicate 6 w9)) "f" 0,
         Chunk.mk (pyJoin (List.replicate 6 w9)) "f" 1]
      = List.range (List.length
        [Chunk.mk (pyJoin (List.replicate 6 w9)) "f" 0,
         Chunk.mk (pyJoin (List.replicate 6 w9)) "f" 1]) :=
  chunk_text_indices_dense 30 0 "f" (pyJoin (List.replicate 12 w9)) 10 _ (by decide)

/-! ## MilvusService (`src/backend/services/milvus_service.py`)

Python floats are modelled as rationals; a raised exception is an
`Except.error` carrying the message; the Milvus client and the
embedding model are abstracted as function parameters giving the
outcome of each remote call.
-/

/-- Python `round(x, 1)`: round to one decimal place.  (CPython uses
round-half-to-even on floats; the model rounds half away from zero,
which agrees everywhere except exact half-tenth ties, and no claim
turns on tie behaviour.) -/
def round1 (x : ℚ) : ℚ := (round (x * 10) : ℚ) / 10

/-- A job record as shaped by `search_jobs` (entity fields plus the
normalized match score). -/
structure Job where
  id : String
  job_title : String
  company : String
  description : String
  required_skills : String
  experience_level : String
  education_requirements : String
  location : String
  salary_range : String
  match_score : ℚ
  deriving DecidableEq

/-- One raw search hit from the client: the stored entity fields plus
the raw cosine distance (`hit.get("distance", 1.0)`). -/
structure Hit where
  id : String
  distance : ℚ
  job_title : String
  company : String
  description : String
  required_skills : String
  experience_level : String
  education_requirements : String
  location : String
  salary_range : String
  deriving DecidableEq

/-- The hit-formatting loop body of `search_jobs`, lines 178-195:
`base_score = max(0, (1 - distance) * 100)` and
`match_score = round(base_score, 1)`. -/
def hitToJob (h : Hit) : Job :=
  { id := h.id
    job_title := h.job_title
    company := h.company
    description := h.description
    required_skills := h.required_skills
    experience_level := h.experience_level
    education_requirements := h.education_requirements
    location := h.location
    salary_range := h.salary_range
    match_score := round1 (max 0 ((1 - h.distance) * 100)) }

/-- The re-scoring `for` loop of `_llm_rescore_matches`, lines 265-267:
jobs beyond the end of the score array keep their original score. -/
def applyScores : List Job → List ℚ → List Job
  | [], _ => []
  | j :: js, [] => j :: js
  | j :: js, s :: ss => { j with match_score := round1 s } :: applyScores js ss

/-- `MilvusService._llm_rescore_matches`, lines 206-277.  The response
of the Generator is abstracted to its parse outcome:
`none` - the `generate_response` call raised (outer `except` returns the
original jobs); `some none` - the regex found no numeric array (the
`else` branch returns the original jobs); `some (some scores)` - a
score array was parsed and is applied positionally.  The regex
`[\d.,\s]+` admits only digits, dots, commas and whitespace, so every
parsed score is nonnegative. -/
def llm_rescore_matches (jobs : List Job) (response : Option (Option (List ℚ))) : List Job :=
  match response with
  | none => jobs
  | some none => jobs
  | some (some scores) => applyScores jobs scores

/-- The scores carried by a re-rank response outcome ([] when the call
failed or no array was parsed). -/
def rescoreScores : Option (Option (List ℚ)) → List ℚ
  | some (some scores) => scores
  | _ => []

/-- `MilvusService.search_jobs`, lines 159-204: embed the CV text,
search, shape each hit with a normalized score, then re-rank.  An error
from the embedding step or the client search is re-raised unchanged. -/
def search_jobs (embedQ : Except String (List ℚ))
    (clientSearch : List ℚ → Except String (List (List Hit)))
    (response : Option (Option (List ℚ))) : Except String (List Job) :=
  match embedQ with
  | .error e => .error e
  | .ok q =>
    match clientSearch q with
    | .error e => .error e
    | .ok results =>
      .ok (llm_rescore_matches ((results.flatten).map hitToJob) response)

/-- An input job dict, with `job.get(field, "")` defaults applied. -/
structure JobInput where
  job_title : String
  company : String
  description : String
  required_skills : String
  experience_level : String
  education_requirements : String
  location : String
  salary_range : String
  deriving DecidableEq

/-- One row passed to `client.insert` by `add_jobs`, lines 131-144. -/
structure Row where
  id : String
  vector : List ℚ
  job_title : String
  company : String
  description : String
  required_skills : String
  experience_level : String
  education_requirements : String
  location : String
  salary_range : String
  deriving DecidableEq

/-- `GroqService.format_job_data`: locally reformats the description and
skills of each job, or returns the original list if formatting raised
(`fallback = true`).  Either way the list length is unchanged. -/
def format_job_data (fallback : Bool) (fmt : JobInput → JobInput)
    (jobs : List JobInput) : List JobInput :=
  if fallback then jobs else jobs.map fmt

/-- The composite embedding text built for one job, lines 118-127
(whitespace layout elided; only the data content matters here). -/
def jobEmbedText (j : JobInput) : String :=
  "Job Title: " ++ j.job_title ++ " Company: " ++ j.company ++
  " Description: " ++ j.description ++ " Required Skills: " ++ j.required_skills ++
  " Experience Level: " ++ j.experience_level ++ " Education Requirements: " ++
  j.education_requirements ++ " Location: " ++ j.location

/-- `MilvusService._generate_embeddings`, lines 97-101: encode every
text with the model (`enc`), or raise if loading/encoding fails. -/
def generate_embeddings (embedFail : Option String) (enc : String → List ℚ)
    (texts : List String) : Except String (List (List ℚ)) :=
  match embedFail with
  | some e => .error e
  | none => .ok (texts.map enc)

/-- The row-building loop of `add_jobs`, lines 131-144: each row gets a
fresh `str(uuid.uuid4())`; `idGen i` is the `i`-th uuid drawn. -/
def buildRows (idGen : Nat → String) : Nat → List (JobInput × List ℚ) → List Row
  | _, [] => []
  | i, (j, v) :: rest =>
    { id := idGen i
      vector := v
      job_title := j.job_title
      company := j.company
      description := j.description
      required_skills := j.required_skills
      experience_level := j.experience_level
      education_requirements := j.education_requirements
      location := j.location
      salary_range := j.salary_range } :: buildRows idGen (i + 1) rest

/-- The Python dict returned by `add_jobs`. -/
inductive AddJobsResult where
  | msg (s : String)
  | inserted (count : Nat)
  deriving DecidableEq

/-- The observable effects of one `add_jobs` call: the argument lists of
every `_generate_embeddings` call and every `client.insert` call, plus
the returned dict. -/
structure AddJobsTrace where
  embedCalls : List (List String)
  insertCalls : List (List Row)
  result : AddJobsResult
  deriving DecidableEq

/-- `MilvusService.add_jobs`, lines 103-157.  Empty input returns
`{"message": "No jobs to add"}` before any embedding or insert;
otherwise the formatted jobs are embedded in one call and written in
one batch `client.insert`, and `{"inserted_count": len(data)}` is
returned.  Errors from embedding or insert are re-raised unchanged. -/
def add_jobs (jobs : List JobInput) (fallback : Bool) (fmt : JobInput → JobInput)
    (embedFail : Option String) (enc : String → List ℚ)
    (clientInsert : List Row → Except String Unit)
    (idGen : Nat → String) : Except String AddJobsTrace :=
  if jobs = [] then .ok ⟨[], [], .msg "No jobs to add"⟩
  else
    match generate_embeddings embedFail enc ((format_job_data fallback fmt jobs).map jobEmbedText) with
    | .error e => .error e
    | .ok embeddings =>
      match clientInsert (buildRows idGen 0 ((format_job_data fallback fmt jobs).zip embeddings)) with
      | .error e => .error e
      | .ok _ =>
        .ok ⟨[(format_job_data fallback fmt jobs).map jobEmbedText],
             [buildRows idGen 0 ((format_job_data fallback fmt jobs).zip embeddings)],
             .inserted (buildRows idGen 0 ((format_job_data fallback fmt jobs).zip embeddings)).length⟩

/-- The grouping loop of `list_documents`, lines 290-298: count chunks
per filename, in first-seen order (Python dict insertion order). -/
def groupCount (rows : List String) : List (String × Nat) :=
  rows.foldl (fun acc fn =>
    if acc.any (fun p => p.1 = fn)
    then acc.map (fun p => if p.1 = fn then (p.1, p.2 + 1) else p)
    else acc ++ [(fn, 1)]) []

/-- `MilvusService.list_documents`, lines 279-302: query the filenames,
group; a client error is re-raised unchanged. -/
def list_documents (clientQuery : Except String (List String)) :
    Except String (List (String × Nat)) :=
  match clientQuery with
  | .error e => .error e
  | .ok rows => .ok (groupCount rows)

/-- The deletion filter built by `delete_document`, line 310:
`f'filename == "{filename}"'` with no escaping of the filename. -/
def mkDeleteFilter (filename : List Char) : List Char :=
  ("filename == ".toList) ++ '"' :: (filename ++ ['"'])

/-- `MilvusService.delete_document`, lines 304-316: issue the delete
with the interpolated filter; a client error is re-raised unchanged. -/
def delete_document (clientDelete : List Char → Except String Unit)
    (filename : List Char) : Except String Unit :=
  clientDelete (mkDeleteFilter filename)

/-- The fragment of the Milvus boolean filter grammar needed here:
equality of the `filename` field against a quoted string literal
(which can contain no `"`). -/
inductive FilterExpr where
  | eqFilename (lit : List Char)
  deriving DecidableEq

/-- True for characters allowed inside a quoted filter literal. -/
def notQuote (c : Char) : Bool := c ≠ '"'

def stripPrefixL : List Char → List Char → Option (List Char)
  | [], s => some s
  | _ :: _, [] => none
  | p :: ps, c :: cs => if c = p then stripPrefixL ps cs else none

/-- Parse a filter of the form `filename == "<literal>"`. -/
def parseFilter (s : List Char) : Option FilterExpr :=
  match stripPrefixL ("filename == ".toList ++ ['"']) s with
  | none => none
  | some rest =>
    if rest = rest.takeWhile notQuote ++ ['"']
    then some (.eqFilename (rest.takeWhile notQuote))
    else none

/-- Milvus semantics of the parsed filter on a row's filename field. -/
def filterMatches : FilterExpr → List Char → Bool
  | .eqFilename lit, rowFilename => rowFilename = lit

/-- The dict returned by `get_collection_info`: either the info fields
or the `{"error": …}` shape. -/
inductive CollectionInfo where
  | info (collection_name : String) (row_count : Nat) (prefixField : String) (base_name : String)
  | errorDict (error : String)
  deriving DecidableEq

/-- `MilvusService.get_collection_info`, lines 329-361.  Every failure
is caught: a client error anywhere makes the method return an
`{"error": str(e)}` dict (outer `except`) or fall back to the stats
count and then to 0 (inner `except`s); it never re-raises. -/
def get_collection_info (hasCollection : Except String Bool)
    (queryIds : Except String (List String))
    (stats : Except String Nat) : Except String CollectionInfo :=
  match hasCollection with
  | .error e => .ok (.errorDict e)
  | .ok false => .ok (.errorDict "Collection hrsd does not exist")
  | .ok true =>
    match queryIds with
    | .ok results => .ok (.info "hrsd" results.length "hrsd" "hrsd")
    | .error _ =>
      match stats with
      | .ok n => .ok (.info "hrsd" n "hrsd" "hrsd")
      | .error _ => .ok (.info "hrsd" 0 "hrsd" "hrsd")

/-- The instance attributes of `MilvusService`.  `__init__` (lines
11-17) assigns `client`, `collection_name`, `embedding_model`,
`embedding_model_name` and `dimension`;  `collection_prefix` is `none`
because no method of the class ever assigns it (a Python attribute that
does not exist). -/
structure MilvusServiceState where
  client : Option String
  collection_name : String
  embedding_model : Option String
  embedding_model_name : String
  dimension : Nat
  collection_prefix : Option String
  deriving DecidableEq

/-- `MilvusService.__init__`. -/
def initService (modelName : String) : MilvusServiceState :=
  { client := none
    collection_name := "hrsd"
    embedding_model := none
    embedding_model_name := modelName
    dimension := 384
    collection_prefix := none }

/-- The states a `MilvusService` instance can be in: freshly
constructed, or after `initialize` set `self.client`, or after
`_get_embedding_model` set `self.embedding_model`.  No other attribute
assignment exists in the class. -/
inductive Reachable : MilvusServiceState → Prop
  | init (modelName : String) : Reachable (initService modelName)
  | connect (s : MilvusServiceState) (c : String) (h : Reachable s) :
      Reachable { s with client := some c }
  | loadModel (s : MilvusServiceState) (m : String) (h : Reachable s) :
      Reachable { s with embedding_model := some m }

/-- `MilvusService.list_app_collections`, lines 318-327:
`self.client.list_collections()` runs first (its error is re-raised by
the `except` clause), then the comprehension reads
`self.collection_prefix` once per element — so an empty collection list
returns `[]` without ever touching the attribute, while a nonempty one
raises `AttributeError` at the first element when the attribute is
missing. -/
def list_app_collections (s : MilvusServiceState)
    (clientList : Except String (List String)) : Except String (List String) :=
  match clientList with
  | .error e => .error e
  | .ok [] => .ok []
  | .ok (c :: cs) =>
    match MilvusServiceState.collection_prefix s with
    | none => .error "AttributeError: collection_prefix"
    | some p => .ok ((c :: cs).filter (fun col => col.startsWith p))

/-- The methods defined on `MilvusService`
(`src/backend/services/milvus_service.py`). -/
def milvusServiceMethods : List String :=
  ["__init__", "_get_embedding_model", "initialize", "_create_collection",
   "clear_collection", "_generate_embeddings", "add_jobs", "search_jobs",
   "_llm_rescore_matches", "list_documents", "delete_document",
   "list_app_collections", "get_collection_info"]

/-- The store methods the document pipeline of `src/app.py` invokes on
`milvus_service` (lines 440 and 457). -/
def appDocumentPipelineCalls : List String :=
  ["add_documents", "search_documents"]

/-- Python attribute lookup on a `MilvusService` instance for a method
name: `none` models the `AttributeError` raised when the class does not
define the name. -/
def getattrMethod (name : String) : Option String :=
  if name ∈ milvusServiceMethods then some name else none

/-! ### Score and re-ranking lemmas -/

theorem round1_nonneg {x : ℚ} (hx : 0 ≤ x) : 0 ≤ round1 x := by
  unfold round1
  have h : (0 : ℤ) ≤ round (x * 10) := by
    rw [round_eq]
    refine Int.le_floor.mpr ?_
    push_cast
    linarith
  have h10 : (0 : ℚ) ≤ 10 := by norm_num
  exact div_nonneg (by exact_mod_cast h) h10

theorem applyScores_nil (jobs : List Job) : applyScores jobs [] = jobs := by
  cases jobs <;> rfl

theorem applyScores_length (jobs : List Job) (ss : List ℚ) :
    (applyScores jobs ss).length = jobs.length := by
  induction jobs generalizing ss with
  | nil => rfl
  | cons j js ih =>
    cases ss with
    | nil => rfl
    | cons s ss => simp [applyScores, ih]

theorem applyScores_getElem_of_short (jobs : List Job) (ss : List ℚ) (i : Nat)
    (h : ss.length ≤ i) : (applyScores jobs ss)[i]? = jobs[i]? := by
  induction jobs generalizing ss i with
  | nil => rfl
  | cons j js ih =>
    cases ss with
    | nil => rw [applyScores_nil]
    | cons s ss =>
      cases i with
      | zero => simp at h
      | succ n =>
        simp only [applyScores, List.getElem?_cons_succ]
        exact ih ss n (by simpa using h)

theorem applyScores_getElem_shape (jobs : List Job) (ss : List ℚ) (i : Nat) :
    ∃ sc : ℚ, (applyScores jobs ss)[i]? =
      (jobs[i]?).map (fun j => { j with match_score := sc }) := by
  induction jobs generalizing ss i with
  | nil => exact ⟨0, rfl⟩
  | cons j js ih =>
    cases ss with
    | nil =>
      rw [applyScores_nil]
      cases i with
      | zero => exact ⟨j.match_score, by simp⟩
      | succ n =>
        simp only [List.getElem?_cons_succ]
        cases hjs : js[n]? with
        | none => exact ⟨0, by simp [hjs]⟩
        | some jj => exact ⟨jj.match_score, by simp [hjs]⟩
    | cons s ss =>
      cases i with
      | zero => exact ⟨round1 s, by simp [applyScores]⟩
      | succ n =>
        simpa only [applyScores, List.getElem?_cons_succ] using ih ss n

theorem applyScores_nonneg (jobs : List Job) (ss : List ℚ)
    (hj : ∀ j ∈ jobs, 0 ≤ Job.match_score j) (hs : ∀ s ∈ ss, 0 ≤ s) :
    ∀ j ∈ applyScores jobs ss, 0 ≤ Job.match_score j := by
  induction jobs generalizing ss with
  | nil => intro j hmem; simp [applyScores] at hmem
  | cons j js ih =>
    cases ss with
    | nil => rw [applyScores_nil]; exact hj
    | cons s ss =>
      intro x hmem
      rcases List.mem_cons.mp hmem with rfl | hx
      · exact round1_nonneg (hs s (List.mem_cons_self s ss))
      · exact ih ss (fun y hy => hj y (List.mem_cons_of_mem j hy))
          (fun y hy => hs y (List.mem_cons_of_mem s hy)) x hx

theorem llm_rescore_nonneg (jobs : List Job) (response : Option (Option (List ℚ)))
    (hj : ∀ j ∈ jobs, 0 ≤ Job.match_score j)
    (hs : ∀ s ∈ rescoreScores response, 0 ≤ s) :
    ∀ j ∈ llm_rescore_matches jobs response, 0 ≤ Job.match_score j := by
  match response with
  | none => exact hj
  | some none => exact hj
  | some (some scores) => exact applyScores_nonneg jobs scores hj hs

/-- C3: each search hit's match score is `max(0, (1 - distance) * 100)`
rounded to one decimal; distance 0 gives 100, distance 1 gives 0, the
score is never negative, and (since the re-rank regex `[\d.,\s]+` only
parses nonnegative numbers) no job returned by `search_jobs` ever
carries a negative match score. -/
theorem search_jobs_score_normalization (h : Hit)
    (embedQ : Except String (List ℚ))
    (clientSearch : List ℚ → Except String (List (List Hit)))
    (response : Option (Option (List ℚ))) (res : List Job)
    (hres : search_jobs embedQ clientSearch response = .ok res)
    (hnn : ∀ s ∈ rescoreScores response, 0 ≤ s) :
    ((hitToJob h).match_score = round1 (max 0 ((1 - h.distance) * 100))) ∧
    (h.distance = 0 → (hitToJob h).match_score = 100) ∧
    (h.distance = 1 → (hitToJob h).match_score = 0) ∧
    (0 ≤ (hitToJob h).match_score) ∧
    (∀ j ∈ res, 0 ≤ Job.match_score j) := by
  refine ⟨rfl, ?_, ?_, ?_, ?_⟩
  · intro h0
    show round1 (max 0 ((1 - h.distance) * 100)) = 100
    rw [h0]
    have hv : (1 - (0 : ℚ)) * 100 = 100 := by norm_num
    rw [hv, max_eq_right (by norm_num : (0 : ℚ) ≤ 100)]
    rw [round1]
    norm_num
  · intro h1
    show round1 (max 0 ((1 - h.distance) * 100)) = 0
    rw [h1]
    have hv : (1 - (1 : ℚ)) * 100 = 0 := by norm_num
    rw [hv, max_self, round1]
    norm_num
  · exact round1_nonneg (le_max_left _ _)
  · cases embedQ with
    | error e => simp [search_jobs] at hres
    | ok q =>
      rw [search_jobs] at hres
      cases hq : clientSearch q with
      | error e => rw [hq] at hres; simp at hres
      | ok hits =>
        rw [hq] at hres
        simp only [Except.ok.injEq] at hres
        subst hres
        refine llm_rescore_nonneg _ response ?_ hnn
        intro j hj
        rcases List.mem_map.mp hj with ⟨ht, _, rfl⟩
        exact round1_nonneg (le_max_left _ _)

theorem search_jobs_score_normalization_witness :
    ((hitToJob ⟨"id1", 1/4, "t", "c", "d", "r", "e", "ed", "l", "s"⟩).match_score
        = round1 (max 0 ((1 - Hit.distance ⟨"id1", 1/4, "t", "c", "d", "r", "e", "ed", "l", "s"⟩) * 100))) ∧
    (Hit.distance ⟨"id1", 1/4, "t", "c", "d", "r", "e", "ed", "l", "s"⟩ = 0 →
      (hitToJob ⟨"id1", 1/4, "t", "c", "d", "r", "e", "ed", "l", "s"⟩).match_score = 100) ∧
    (Hit.distance ⟨"id1", 1/4, "t", "c", "d", "r", "e", "ed", "l", "s"⟩ = 1 →
      (hitToJob ⟨"id1", 1/4, "t", "c", "d", "r", "e", "ed", "l", "s"⟩).match_score = 0) ∧
    (0 ≤ (hitToJob ⟨"id1", 1/4, "t", "c", "d", "r", "e", "ed", "l", "s"⟩).match_score) ∧
    (∀ j ∈ ([] : List Job), 0 ≤ Job.match_score j) :=
  search_jobs_score_normalization ⟨"id1", 1/4, "t", "c", "d", "r", "e", "ed", "l", "s"⟩
    (.ok []) (fun _ => .ok []) none [] rfl
    (fun s hs => absurd hs (List.not_mem_nil s))

/-- C4: a failed Generator call or a malformed re-rank response leaves
the candidate list exactly as it was; in all cases the output has the
same length and the same jobs (only `match_score` can change), and
entries beyond the end of a short score array keep their original
score, indeed their whole record. -/
theorem llm_rescore_graceful (jobs : List Job) (response : Option (Option (List ℚ)))
    (scores : List ℚ) (i k : Nat) (hk : scores.length ≤ k) :
    (llm_rescore_matches jobs none = jobs) ∧
    (llm_rescore_matches jobs (some none) = jobs) ∧
    ((llm_rescore_matches jobs response).length = jobs.length) ∧
    (∃ sc : ℚ, (llm_rescore_matches jobs response)[i]? =
      (jobs[i]?).map (fun j => { j with match_score := sc })) ∧
    ((llm_rescore_matches jobs (some (some scores)))[k]? = jobs[k]?) := by
  refine ⟨rfl, rfl, ?_, ?_, ?_⟩
  · match response with
    | none => rfl
    | some none => rfl
    | some (some ss) => exact applyScores_length jobs ss
  · match response with
    | none =>
      show ∃ sc : ℚ, jobs[i]? = (jobs[i]?).map (fun j => { j with match_score := sc })
      cases hj : jobs[i]? with
      | none => exact ⟨0, rfl⟩
      | some j => exact ⟨j.match_score, rfl⟩
    | some none =>
      show ∃ sc : ℚ, jobs[i]? = (jobs[i]?).map (fun j => { j with match_score := sc })
      cases hj : jobs[i]? with
      | none => exact ⟨0, rfl⟩
      | some j => exact ⟨j.match_score, rfl⟩
    | some (some ss) => exact applyScores_getElem_shape jobs ss i
  · exact applyScores_getElem_of_short jobs scores k hk

/-- Sample jobs for concrete instances. -/
def jobA : Job := ⟨"a", "ta", "ca", "da", "ra", "ea", "eda", "la", "sa", 10⟩

def jobB : Job := ⟨"b", "tb", "cb", "db", "rb", "eb", "edb", "lb", "sb", 20⟩

theorem llm_rescore_graceful_witness :
    (llm_rescore_matches [jobA, jobB] none = [jobA, jobB]) ∧
    (llm_rescore_matches [jobA, jobB] (some none) = [jobA, jobB]) ∧
    ((llm_rescore_matches [jobA, jobB] (some (some [5]))).length = [jobA, jobB].length) ∧
    (∃ sc : ℚ, (llm_rescore_matches [jobA, jobB] (some (some [5])))[0]? =
      ([jobA, jobB][0]?).map (fun j => { j with match_score := sc })) ∧
    ((llm_rescore_matches [jobA, jobB] (some (some [5])))[1]? = [jobA, jobB][1]?) :=
  llm_rescore_graceful [jobA, jobB] (some (some [5])) [5] 0 1 (by decide)

/-! ### add_jobs lemmas -/

theorem buildRows_length (idGen : Nat → String) :
    ∀ (i : Nat) (l : List (JobInput × List ℚ)), (buildRows idGen i l).length = l.length := by
  intro i l
  induction l generalizing i with
  | nil => rfl
  | cons p rest ih =>
    cases p with
    | mk j v => simp [buildRows, ih]

theorem buildRows_map_id (idGen : Nat → String) :
    ∀ (i : Nat) (l : List (JobInput × List ℚ)),
      (buildRows idGen i l).map Row.id = (List.range' i l.length).map idGen := by
  intro i l
  induction l generalizing i with
  | nil => rfl
  | cons p rest ih =>
    cases p with
    | mk j v => simp [buildRows, List.range', ih]

theorem format_job_data_length (fallback : Bool) (fmt : JobInput → JobInput)
    (jobs : List JobInput) : (format_job_data fallback fmt jobs).length = jobs.length := by
  cases fallback <;> simp [format_job_data]

/-- C5: `add_jobs` gives each row a fresh uuid (`idGen i` is the `i`-th
draw; distinct draws give pairwise distinct ids), performs exactly one
embedding call and one batch `client.insert` with all rows, and returns
`inserted_count = len(data) = len(jobs)`; an empty job list returns the
`"No jobs to add"` message with no embedding and no insert. -/
theorem add_jobs_spec (jobs : List JobInput) (fallback : Bool) (fmt : JobInput → JobInput)
    (enc : String → List ℚ) (clientInsert : List Row → Except String Unit)
    (idGen : Nat → String) (tr : AddJobsTrace)
    (htr : add_jobs jobs fallback fmt none enc clientInsert idGen = .ok tr)
    (hne : jobs ≠ []) :
    (add_jobs [] fallback fmt none enc clientInsert idGen
        = .ok ⟨[], [], .msg "No jobs to add"⟩) ∧
    ∃ rows, tr.embedCalls.length = 1 ∧ tr.insertCalls = [rows] ∧
      rows.length = jobs.length ∧ tr.result = .inserted rows.length ∧
      (Function.Injective idGen → (rows.map Row.id).Nodup) := by
  refine ⟨by simp [add_jobs], ?_⟩
  rw [add_jobs, if_neg hne] at htr
  simp only [generate_embeddings] at htr
  cases hci : clientInsert (buildRows idGen 0
      ((format_job_data fallback fmt jobs).zip
        (((format_job_data fallback fmt jobs).map jobEmbedText).map enc))) with
  | error e => rw [hci] at htr; simp at htr
  | ok u =>
    rw [hci] at htr
    simp only [Except.ok.injEq] at htr
    subst htr
    refine ⟨buildRows idGen 0
      ((format_job_data fallback fmt jobs).zip
        (((format_job_data fallback fmt jobs).map jobEmbedText).map enc)), rfl, rfl, ?_, rfl, ?_⟩
    · rw [buildRows_length]
      rw [List.length_zip]
      simp [format_job_data_length]
    · intro hinj
      rw [buildRows_map_id]
      exact (List.nodup_range' _ _ _ Nat.one_pos).map hinj

/-- A sample input job, its insert row, and the resulting trace. -/
def jobIn : JobInput := ⟨"t", "c", "d", "r", "e", "ed", "l", "s"⟩

def sampleRow : Row := ⟨"0", [], "t", "c", "d", "r", "e", "ed", "l", "s"⟩

def sampleTrace : AddJobsTrace := ⟨[[jobEmbedText jobIn]], [[sampleRow]], .inserted 1⟩

theorem add_jobs_spec_witness :
    (add_jobs [] true id none (fun _ => []) (fun _ => .ok ()) (fun n => toString n)
        = .ok ⟨[], [], .msg "No jobs to add"⟩) ∧
    ∃ rows, sampleTrace.embedCalls.length = 1 ∧ sampleTrace.insertCalls = [rows] ∧
      rows.length = [jobIn].length ∧ sampleTrace.result = .inserted rows.length ∧
      (Function.Injective (fun n : Nat => toString n) → (rows.map Row.id).Nodup) :=
  add_jobs_spec [jobIn] true id (fun _ => []) (fun _ => .ok ()) (fun n => toString n)
    sampleTrace rfl (by decide)

/-! ### Error propagation (C8) -/

/-- Counterexample to C8 as stated: `get_collection_info` does NOT let
its errors bubble.  With the client raising "connection refused" at the
existence probe, the method returns the ordinary (non-error) value
`{"error": "connection refused"}` instead of re-raising. -/
theorem get_collection_info_swallows_errors :
    get_collection_info (.error "connection refused") (.error "connection refused")
        (.error "connection refused") = .ok (.errorDict "connection refused") := rfl

/-- C8 (amended): store-layer errors bubble unchanged through
`add_jobs` (embedding or insert failure), `search_jobs` (embedding or
search failure), `list_documents` and `delete_document`; the re-ranking
soft failure is absorbed; and `get_collection_info` absorbs every
error, always returning an ordinary dict. -/
theorem store_error_propagation (e : String) (jobs : List JobInput) (hne : jobs ≠ [])
    (fallback : Bool) (fmt : JobInput → JobInput) (enc : String → List ℚ)
    (idGen : Nat → String) (q : List ℚ)
    (clientSearch : List ℚ → Except String (List (List Hit)))
    (response : Option (Option (List ℚ))) (f : List Char) (js : List Job)
    (a : Except String Bool) (b : Except String (List String)) (c : Except String Nat) :
    (add_jobs jobs fallback fmt (some e) enc (fun _ => .ok ()) idGen = .error e) ∧
    (add_jobs jobs fallback fmt none enc (fun _ => .error e) idGen = .error e) ∧
    (search_jobs (.error e) clientSearch response = .error e) ∧
    (search_jobs (.ok q) (fun _ => .error e) response = .error e) ∧
    (list_documents (.error e) = .error e) ∧
    (delete_document (fun _ => .error e) f = .error e) ∧
    (llm_rescore_matches js none = js) ∧
    (∃ v, get_collection_info a b c = .ok v) := by
  refine ⟨?_, ?_, rfl, rfl, rfl, rfl, rfl, ?_⟩
  · rw [add_jobs, if_neg hne]
    rfl
  · rw [add_jobs, if_neg hne]
    simp [generate_embeddings]
  · cases a with
    | error e' => exact ⟨.errorDict e', rfl⟩
    | ok hc =>
      cases hc with
      | false => exact ⟨.errorDict "Collection hrsd does not exist", rfl⟩
      | true =>
        cases b with
        | ok ids => exact ⟨.info "hrsd" ids.length "hrsd" "hrsd", rfl⟩
        | error _ =>
          cases c with
          | ok n => exact ⟨.info "hrsd" n "hrsd" "hrsd", rfl⟩
          | error _ => exact ⟨.info "hrsd" 0 "hrsd" "hrsd", rfl⟩

theorem store_error_propagation_witness :
    (add_jobs [jobIn] true id (some "boom") (fun _ => []) (fun _ => .ok ())
        (fun n => toString n) = .error "boom") ∧
    (add_jobs [jobIn] true id none (fun _ => []) (fun _ => .error "boom")
        (fun n => toString n) = .error "boom") ∧
    (search_jobs (.error "boom") (fun _ => .ok []) none = .error "boom") ∧
    (search_jobs (.ok []) (fun _ => .error "boom") none = .error "boom") ∧
    (list_documents (.error "boom") = .error "boom") ∧
    (delete_document (fun _ => .error "boom") ("doc1.pdf".toList) = .error "boom") ∧
    (llm_rescore_matches [jobA] none = [jobA]) ∧
    (∃ v, get_collection_info (.error "boom") (.error "boom") (.error "boom") = .ok v) :=
  store_error_propagation "boom" [jobIn] (by decide) true id (fun _ => [])
    (fun n => toString n) [] (fun _ => .ok []) none ("doc1.pdf".toList) [jobA]
    (.error "boom") (.error "boom") (.error "boom")

/-! ### list_app_collections (C9) -/

/-- No reachable instance state carries a `collection_prefix`
attribute: `__init__` does not set it and no method ever assigns it. -/
theorem reachable_has_no_prefix_attr (s : MilvusServiceState) (hs : Reachable s) :
    MilvusServiceState.collection_prefix s = none := by
  induction hs with
  | init modelName => rfl
  | connect s c h ih => exact ih
  | loadModel s m h ih => exact ih

/-- Counterexample to C9 as stated: the method does not unconditionally
raise `AttributeError`.  The client call is evaluated first: with a
client returning an empty collection list the method successfully
returns `[]` (the comprehension never reads the attribute), and with a
failing client the client's own error is re-raised instead. -/
theorem list_app_collections_not_always_raising :
    list_app_collections (initService "all-MiniLM-L6-v2") (.ok [])
        = .ok ([] : List String) ∧
    list_app_collections (initService "all-MiniLM-L6-v2") (.error "connection refused")
        = .error "connection refused" :=
  ⟨rfl, rfl⟩

/-- C9 (amended): `self.collection_prefix` is never assigned in the
class, so from every reachable state: a client error propagates
unchanged; an empty collection list returns `[]`; and any nonempty
collection list makes the method raise `AttributeError` when the
comprehension first reads the attribute — it can never return a
nonempty list of prefixed collection names. -/
theorem list_app_collections_raises_on_nonempty (s : MilvusServiceState)
    (hs : Reachable s) (e : String) (c : String) (cs : List String) :
    (list_app_collections s (.error e) = .error e) ∧
    (list_app_collections s (.ok []) = .ok []) ∧
    (list_app_collections s (.ok (c :: cs))
        = .error "AttributeError: collection_prefix") := by
  have hp := reachable_has_no_prefix_attr s hs
  exact ⟨rfl, rfl, by rw [list_app_collections, hp]⟩

theorem list_app_collections_raises_on_nonempty_witness :
    (list_app_collections (initService "all-MiniLM-L6-v2") (.error "boom")
        = .error "boom") ∧
    (list_app_collections (initService "all-MiniLM-L6-v2") (.ok []) = .ok []) ∧
    (list_app_collections (initService "all-MiniLM-L6-v2") (.ok ("hrsd" :: ["other"]))
        = .error "AttributeError: collection_prefix") :=
  list_app_collections_raises_on_nonempty (initService "all-MiniLM-L6-v2")
    (Reachable.init "all-MiniLM-L6-v2") "boom" "hrsd" ["other"]

/-! ### delete_document filter (C10) -/

theorem stripPrefixL_append (p s : List Char) : stripPrefixL p (p ++ s) = some s := by
  induction p with
  | nil => rfl
  | cons c cs ih => simp [stripPrefixL, ih]

theorem takeWhile_notQuote_append (l : List Char) (hl : ∀ c ∈ l, notQuote c = true) :
    (l ++ ['"']).takeWhile notQuote = l := by
  induction l with
  | nil => rfl
  | cons c cs ih =>
    rw [List.cons_append, List.takeWhile_cons, if_pos (hl c (List.mem_cons_self c cs))]
    rw [ih (fun x hx => hl x (List.mem_cons_of_mem c hx))]

theorem parseFilter_lit_no_quote (s lit : List Char)
    (h : parseFilter s = some (.eqFilename lit)) : '"' ∉ lit := by
  intro hmem
  rw [parseFilter] at h
  cases hp : stripPrefixL ("filename == ".toList ++ ['"']) s with
  | none =>
    rw [hp] at h
    dsimp only at h
    exact Option.noConfusion h
  | some rest =>
    rw [hp] at h
    dsimp only at h
    by_cases hc : rest = rest.takeWhile notQuote ++ ['"']
    · rw [if_pos hc] at h
      have hlit : rest.takeWhile notQuote = lit := by simpa using h
      have hqw := List.mem_takeWhile_imp (hlit ▸ hmem : '"' ∈ rest.takeWhile notQuote)
      simp [notQuote] at hqw
    · rw [if_neg hc] at h
      exact Option.noConfusion h

/-- C10: the deletion filter is built by raw interpolation.  For a
filename with no `"` the filter parses back to equality against exactly
that filename and matches precisely the rows whose filename equals it;
a filename containing `"` changes the filter expression itself, so it
can never parse to equality against that filename. -/
theorem delete_document_filter_exact (f : List Char) (hq : '"' ∉ f)
    (g : List Char) (hg : '"' ∈ g) :
    (∀ clientDelete, delete_document clientDelete f = clientDelete (mkDeleteFilter f)) ∧
    parseFilter (mkDeleteFilter f) = some (.eqFilename f) ∧
    (∀ row : List Char, filterMatches (.eqFilename f) row = true ↔ row = f) ∧
    parseFilter (mkDeleteFilter g) ≠ some (.eqFilename g) := by
  refine ⟨fun _ => rfl, ?_, ?_, ?_⟩
  · have hshape : mkDeleteFilter f
        = ("filename == ".toList ++ ['"']) ++ (f ++ ['"']) := by
      simp [mkDeleteFilter]
    rw [parseFilter, hshape, stripPrefixL_append]
    have ht : (f ++ ['"']).takeWhile notQuote = f :=
      takeWhile_notQuote_append f (fun c hc => by
        simp only [notQuote, ne_eq, decide_eq_true_eq]
        intro hcq
        exact hq (hcq ▸ hc))
    dsimp only
    rw [ht, if_pos rfl]
  · intro row
    simp [filterMatches]
  · intro hparse
    exact absurd hg (fun hmem => parseFilter_lit_no_quote _ _ hparse hmem)

theorem delete_document_filter_exact_witness :
    (∀ clientDelete, delete_document clientDelete ("doc1.pdf".toList)
        = clientDelete (mkDeleteFilter ("doc1.pdf".toList))) ∧
    parseFilter (mkDeleteFilter ("doc1.pdf".toList))
        = some (.eqFilename ("doc1.pdf".toList)) ∧
    (∀ row : List Char, filterMatches (.eqFilename ("doc1.pdf".toList)) row = true
        ↔ row = "doc1.pdf".toList) ∧
    parseFilter (mkDeleteFilter ['"']) ≠ some (.eqFilename ['"']) :=
  delete_document_filter_exact ("doc1.pdf".toList) (by decide) ['"'] (by decide)

/-! ### The document-pipeline call sites (C2) -/

/-- C2: the claim says the vector-store service provides the
`addDocuments`/`search` operations the application invokes as
`milvus_service.add_documents` and `milvus_service.search_documents`.
`MilvusService` defines neither name — attribute lookup fails for both
(an `AttributeError` at every such call), while only the job-pipeline
methods `add_jobs`/`search_jobs` exist. -/
theorem app_document_calls_missing :
    getattrMethod "add_documents" = none ∧
    getattrMethod "search_documents" = none ∧
    appDocumentPipelineCalls = ["add_documents", "search_documents"] ∧
    "add_jobs" ∈ milvusServiceMethods ∧
    "search_jobs" ∈ milvusServiceMethods := by
  refine ⟨?_, ?_, rfl, ?_, ?_⟩ <;> decide

end RagChatbot
